import Mathlib

/-!
Shallow embedding of the recursive sphere ray tracer in `src/main.cpp`.

Modelling conventions:
* `float` values are idealized as exact rationals (`ℚ`); float literals are
  read as the decimal numbers they denote (`0.1f ↦ 1/10`, `0.2f ↦ 1/5`,
  `0.001f ↦ 1/1000`, `0.5f ↦ 1/2`, `1e9 ↦ 10^9`).
* `std::sqrt` is modelled by an abstract parameter `sq : ℚ → ℚ`; theorems
  that depend on square roots being genuine square roots take explicit
  hypotheses about `sq` at the values where the code applies it.
* Division by zero in `ℚ` yields `0` (Lean convention) where IEEE floats
  would produce `NaN`/`Inf`; theorems about degenerate inputs carry
  non-degeneracy hypotheses where this matters.
* `Sphere::intersect`'s C++ signature `bool intersect(const Ray&, float& t)`
  (a flag plus an out-parameter) is rendered as `Option ℚ`.
-/

/-- The 3D float vector type of `src/main.cpp` (`struct Vec3`, lines 7-25). -/
structure Vec3 where
  x : ℚ
  y : ℚ
  z : ℚ
deriving DecidableEq

namespace Vec3

/-- Addition, `operator+` (line 13). -/
def add (a b : Vec3) : Vec3 := ⟨a.x + b.x, a.y + b.y, a.z + b.z⟩

/-- Subtraction, `operator-` (line 14). -/
def sub (a b : Vec3) : Vec3 := ⟨a.x - b.x, a.y - b.y, a.z - b.z⟩

/-- Scaling by a scalar, `operator*(float)` (line 15). -/
def smul (a : Vec3) (s : ℚ) : Vec3 := ⟨a.x * s, a.y * s, a.z * s⟩

/-- Component-wise product, `operator*(const Vec3&)` (line 16). -/
def mul (a b : Vec3) : Vec3 := ⟨a.x * b.x, a.y * b.y, a.z * b.z⟩

/-- Division by a scalar, `operator/(float)` (line 17). -/
def divs (a : Vec3) (s : ℚ) : Vec3 := ⟨a.x / s, a.y / s, a.z / s⟩

/-- Dot product, `dot` (line 24). -/
def dot (a b : Vec3) : ℚ := a.x * b.x + a.y * b.y + a.z * b.z

/-- Normalization, `normalize` (lines 19-22), with `std::sqrt` abstracted as `sq`. -/
def normalize (sq : ℚ → ℚ) (v : Vec3) : Vec3 :=
  let mag := sq (v.x * v.x + v.y * v.y + v.z * v.z)
  ⟨v.x / mag, v.y / mag, v.z / mag⟩

end Vec3

/-- The ray type, `struct Ray` (lines 28-31): an origin and a direction. -/
structure Ray where
  origin : Vec3
  direction : Vec3
deriving DecidableEq

/-- The primitive type, `struct Sphere` (lines 34-56): center, radius, flat color. -/
structure Sphere where
  center : Vec3
  radius : ℚ
  color : Vec3
deriving DecidableEq

namespace Sphere

/-- Quadratic coefficient `a = dot(direction, direction)` (line 43). -/
def coefA (_s : Sphere) (r : Ray) : ℚ := r.direction.dot r.direction

/-- Quadratic coefficient `b = 2 * oc.dot(direction)` where
`oc = origin - center` (lines 42 and 44). -/
def coefB (s : Sphere) (r : Ray) : ℚ := 2 * ((r.origin.sub s.center).dot r.direction)

/-- Quadratic coefficient `c = oc.dot(oc) - radius * radius` (line 45). -/
def coefC (s : Sphere) (r : Ray) : ℚ :=
  (r.origin.sub s.center).dot (r.origin.sub s.center) - s.radius * s.radius

/-- The discriminant `b*b - 4*a*c` (line 46). -/
def disc (s : Sphere) (r : Ray) : ℚ :=
  s.coefB r * s.coefB r - 4 * s.coefA r * s.coefC r

/-- The closest-hit quadratic test `Sphere::intersect` (lines 41-55). Returns
`some t` exactly when the C++ returns `true` with out-parameter `t`. -/
def intersect (sq : ℚ → ℚ) (s : Sphere) (r : Ray) : Option ℚ :=
  let a := s.coefA r
  let b := s.coefB r
  let discriminant := s.disc r
  if discriminant < 0 then none
  else
    let t0 := (-b - sq discriminant) / (2 * a)
    let t1 := (-b + sq discriminant) / (2 * a)
    let tNear := if t0 < t1 then t0 else t1
    let tSel := if tNear < 0 then (if t0 > t1 then t0 else t1) else tNear
    if 0 ≤ tSel then some tSel else none

end Sphere

/-- The loop of lines 65-73 of `trace`: scan the sphere list keeping
`(nearest, best index)`, starting from the accumulator `acc`; a hit at
parameter `t` replaces the accumulator exactly when `t < nearest`.
`i` is the index of the first sphere of the remaining list. -/
def nearestAux (sq : ℚ → ℚ) (ray : Ray) :
    List Sphere → Nat → ℚ × Option Nat → ℚ × Option Nat
  | [], _, acc => acc
  | s :: rest, i, acc =>
    match Sphere.intersect sq s ray with
    | some t =>
      if t < acc.1 then nearestAux sq ray rest (i + 1) (t, some i)
      else nearestAux sq ray rest (i + 1) acc
    | none => nearestAux sq ray rest (i + 1) acc

/-- The nearest-hit search of `trace` (lines 62-73): `nearest` starts at
`1e9` and `hitSphere` at null (`none`); the result is the final
`(nearest, hitSphere)` pair, the sphere identified by its index. -/
def nearestHit (sq : ℚ → ℚ) (spheres : List Sphere) (ray : Ray) : ℚ × Option Nat :=
  nearestAux sq ray spheres 0 (1000000000, none)

/-- The shadow loop of lines 86-92: scan the spheres from index `i`
onward, reporting a hit by any sphere whose index differs from `hitIdx`
(the C++ compares addresses, `&sphere != hitSphere`). -/
def shadowAnyAux (sq : ℚ → ℚ) (ray : Ray) : List Sphere → Nat → Nat → Bool
  | [], _, _ => false
  | s :: rest, i, hitIdx =>
    if i ≠ hitIdx ∧ (Sphere.intersect sq s ray).isSome = true then true
    else shadowAnyAux sq ray rest (i + 1) hitIdx

/-- The shadow flag `inShadow` of lines 85-92: some sphere other than the one just hit
intersects the shadow ray. -/
def inShadow (sq : ℚ → ℚ) (spheres : List Sphere) (hitIdx : Nat) (shadowRay : Ray) : Bool :=
  shadowAnyAux sq shadowRay spheres 0 hitIdx

/-- The hit-resolution block of `trace` (lines 76-102), hoisted into a
helper: given the index `i` of the hit sphere and the hit parameter
`nearest`, compute the (possibly shadow-dimmed) base color and the
reflection ray. The C++ dereferences `hitSphere`; here the sphere is
looked up by index (the default is never used for indices produced by
`nearestHit`). -/
def shadeBase (sq : ℚ → ℚ) (ray : Ray) (spheres : List Sphere) (lightPos : Vec3)
    (i : Nat) (nearest : ℚ) : Vec3 × Ray :=
  let s := spheres.getD i ⟨⟨0, 0, 0⟩, 0, ⟨0, 0, 0⟩⟩
  let hitPoint := ray.origin.add (ray.direction.smul nearest)
  let normal := Vec3.normalize sq (hitPoint.sub s.center)
  let lightDir := Vec3.normalize sq (lightPos.sub hitPoint)
  let diff := max (normal.dot lightDir) 0
  let shadowRay : Ray := ⟨hitPoint.add (normal.smul (1 / 1000)), lightDir⟩
  let baseColorLit := s.color.smul diff
  let baseColor := if inShadow sq spheres i shadowRay then baseColorLit.smul (1 / 5)
    else baseColorLit
  let reflectDir := Vec3.normalize sq
    (ray.direction.sub (normal.smul (2 * ray.direction.dot normal)))
  (baseColor, ⟨hitPoint.add (normal.smul (1 / 1000)), reflectDir⟩)

/-- The recursive shading function `trace` (lines 59-112): depth cutoff, nearest-hit search, shading with
shadow test, reflection recursion at `depth + 1`, composite with fixed
reflectivity `0.5`; misses return the background color `(0.1, 0.1, 0.1)`. -/
def trace (sq : ℚ → ℚ) (ray : Ray) (spheres : List Sphere) (lightPos : Vec3)
    (depth : Nat) : Vec3 :=
  if h : 2 < depth then ⟨1 / 10, 1 / 10, 1 / 10⟩
  else
    match (nearestHit sq spheres ray).2 with
    | some i =>
      let sb := shadeBase sq ray spheres lightPos i (nearestHit sq spheres ray).1
      let reflectedColor := trace sq sb.2 spheres lightPos (depth + 1)
      (sb.1.smul (1 - 1 / 2)).add (reflectedColor.smul (1 / 2))
    | none => ⟨1 / 10, 1 / 10, 1 / 10⟩
termination_by 3 - depth
decreasing_by simp_wf; omega

/-- Fuel-bounded evaluator for `trace`: identical body, but recursion
consumes explicit fuel and exhaustion is observable as `none`. Used to
state that the recursion of `trace` is depth-bounded. -/
def traceFuel (sq : ℚ → ℚ) : Nat → Ray → List Sphere → Vec3 → Nat → Option Vec3
  | 0, _, _, _, _ => none
  | fuel + 1, ray, spheres, lightPos, depth =>
    if 2 < depth then some ⟨1 / 10, 1 / 10, 1 / 10⟩
    else
      match (nearestHit sq spheres ray).2 with
      | some i =>
        let sb := shadeBase sq ray spheres lightPos i (nearestHit sq spheres ray).1
        match traceFuel sq fuel sb.2 spheres lightPos (depth + 1) with
        | some reflectedColor => some ((sb.1.smul (1 - 1 / 2)).add (reflectedColor.smul (1 / 2)))
        | none => none
      | none => some ⟨1 / 10, 1 / 10, 1 / 10⟩

/-- The per-pixel pipeline of `main` (lines 146-159): normalized device
coordinates with aspect correction, camera ray from the origin through
`normalize(u, v, -1)`, `trace` at depth 0, clamp each component to at
most 1 and quantize by flooring `component * 255`. -/
def renderPixel (sq : ℚ → ℚ) (spheres : List Sphere) (lightPos : Vec3)
    (width height x y : Nat) : Int × Int × Int :=
  let u := (2 * ((x : ℚ) + 1 / 2) / (width : ℚ) - 1) * ((width : ℚ) / (height : ℚ))
  let v := 1 - 2 * ((y : ℚ) + 1 / 2) / (height : ℚ)
  let ray : Ray := ⟨⟨0, 0, 0⟩, Vec3.normalize sq ⟨u, v, -1⟩⟩
  let color := trace sq ray spheres lightPos 0
  (⌊min color.x 1 * 255⌋, ⌊min color.y 1 * 255⌋, ⌊min color.z 1 * 255⌋)

/-- One full frame (the pixel double loop of lines 146-161), row-major. -/
def renderFrame (sq : ℚ → ℚ) (spheres : List Sphere) (lightPos : Vec3)
    (width height : Nat) : List (List (Int × Int × Int)) :=
  (List.range height).map fun y => (List.range width).map fun x =>
    renderPixel sq spheres lightPos width height x y

/-- Example square-root table used for concrete scenarios: exact on the
perfect squares that arise there. -/
def sqEx : ℚ → ℚ := fun d =>
  if d = 1 then 1 else if d = 4 then 2 else if d = 16 then 4 else 0

/-- The single-sphere scenario sphere: center (0,0,-5), radius 1, red. -/
def sphEx : Sphere := ⟨⟨0, 0, -5⟩, 1, ⟨1, 0, 0⟩⟩

/-- The scenario camera ray: origin (0,0,0), direction (0,0,-1). -/
def rayEx : Ray := ⟨⟨0, 0, 0⟩, ⟨0, 0, -1⟩⟩

example : Sphere.intersect sqEx sphEx rayEx = some 4 := by
  norm_num [Sphere.intersect, Sphere.coefA, Sphere.coefB, Sphere.coefC, Sphere.disc,
    sqEx, sphEx, rayEx, Vec3.dot, Vec3.sub]

/-- C6: for every ray, scene, and light position, `trace` called with
`depth > 2` returns exactly the fixed ambient color `(0.1, 0.1, 0.1)`,
independently of the ray and the scene, capping recursion at 3 total ray
generations. -/
theorem C6_depth_cutoff (sq : ℚ → ℚ) (ray : Ray) (spheres : List Sphere)
    (lightPos : Vec3) (depth : Nat) (h : 2 < depth) :
    trace sq ray spheres lightPos depth = ⟨1 / 10, 1 / 10, 1 / 10⟩ := by
  unfold trace
  rw [dif_pos h]

/-- Witness for C6 at depth 3 on a concrete ray and scene. -/
theorem C6_depth_cutoff_witness :
    trace sqEx rayEx [sphEx] ⟨0, 0, 0⟩ 3 = ⟨1 / 10, 1 / 10, 1 / 10⟩ :=
  C6_depth_cutoff sqEx rayEx [sphEx] ⟨0, 0, 0⟩ 3 (by norm_num)

/-- C8: rendering a frame twice with the same scene, light position, and
dimensions produces pixel-identical output — the frame is a pure function
of its inputs, with no hidden randomness or shared mutable state. -/
theorem C8_frame_deterministic (sq : ℚ → ℚ) (spheres1 spheres2 : List Sphere)
    (light1 light2 : Vec3) (w1 w2 h1 h2 : Nat)
    (hs : spheres1 = spheres2) (hl : light1 = light2) (hw : w1 = w2) (hh : h1 = h2) :
    renderFrame sq spheres1 light1 w1 h1 = renderFrame sq spheres2 light2 w2 h2 := by
  subst hs
  subst hl
  subst hw
  subst hh
  rfl

/-- Witness for C8 on a concrete 1-by-1 frame. -/
theorem C8_frame_deterministic_witness :
    renderFrame sqEx [sphEx] ⟨0, 0, 0⟩ 1 1 = renderFrame sqEx [sphEx] ⟨0, 0, 0⟩ 1 1 :=
  C8_frame_deterministic sqEx [sphEx] [sphEx] ⟨0, 0, 0⟩ ⟨0, 0, 0⟩ 1 1 1 1 rfl rfl rfl rfl

/-- C9: `trace` terminates for every input: the fuel-bounded evaluator with
any fuel exceeding `3 - depth` (so fuel 4 for a primary ray) never exhausts
its fuel and computes exactly `trace` — each recursive call increases
`depth` by 1 and every call with `depth > 2` returns immediately. -/
theorem C9_trace_terminates (sq : ℚ → ℚ) (fuel : Nat) (ray : Ray)
    (spheres : List Sphere) (lightPos : Vec3) (depth : Nat) (h : 3 - depth < fuel) :
    traceFuel sq fuel ray spheres lightPos depth =
      some (trace sq ray spheres lightPos depth) := by
  induction fuel generalizing ray depth with
  | zero => omega
  | succ fuel ih =>
    rw [traceFuel]
    unfold trace
    by_cases hd : 2 < depth
    · rw [if_pos hd, dif_pos hd]
    · rw [if_neg hd, dif_neg hd]
      cases hnh : (nearestHit sq spheres ray).2 with
      | none => rfl
      | some i =>
        simp only
        rw [ih _ _ (by omega)]

/-- Witness for C9: fuel 4 suffices for a primary ray at depth 0 on a
concrete scene. -/
theorem C9_trace_terminates_witness :
    traceFuel sqEx 4 rayEx [sphEx] ⟨0, 0, 0⟩ 0 =
      some (trace sqEx rayEx [sphEx] ⟨0, 0, 0⟩ 0) :=
  C9_trace_terminates sqEx 4 rayEx [sphEx] ⟨0, 0, 0⟩ 0 (by norm_num)

/-- C7: each pixel of a frame is produced by building the camera ray with
origin at the world origin and direction `normalize(u, v, -1)` for the
normalized device coordinates `u`, `v`, invoking `trace` at depth 0,
clamping each component to at most 1 (no lower clamp), and quantizing each
channel to `floor(component * 255)`. -/
theorem C7_pixel_pipeline (sq : ℚ → ℚ) (spheres : List Sphere) (lightPos : Vec3)
    (width height x y : Nat) (u v : ℚ) (ray : Ray)
    (hu : u = (2 * ((x : ℚ) + 1 / 2) / (width : ℚ) - 1) * ((width : ℚ) / (height : ℚ)))
    (hv : v = 1 - 2 * ((y : ℚ) + 1 / 2) / (height : ℚ))
    (hr : ray = ⟨⟨0, 0, 0⟩, Vec3.normalize sq ⟨u, v, -1⟩⟩) :
    renderPixel sq spheres lightPos width height x y =
      (⌊min (trace sq ray spheres lightPos 0).x 1 * 255⌋,
       ⌊min (trace sq ray spheres lightPos 0).y 1 * 255⌋,
       ⌊min (trace sq ray spheres lightPos 0).z 1 * 255⌋) := by
  subst hu
  subst hv
  subst hr
  rfl

/-- Witness for C7 at pixel (0, 0) of an 800-by-600 frame. -/
theorem C7_pixel_pipeline_witness :
    renderPixel sqEx [sphEx] ⟨0, 0, 0⟩ 800 600 0 0 =
      (⌊min (trace sqEx ⟨⟨0, 0, 0⟩, Vec3.normalize sqEx
          ⟨(2 * (((0 : Nat) : ℚ) + 1 / 2) / ((800 : Nat) : ℚ) - 1) *
              (((800 : Nat) : ℚ) / ((600 : Nat) : ℚ)),
            1 - 2 * (((0 : Nat) : ℚ) + 1 / 2) / ((600 : Nat) : ℚ), -1⟩⟩
          [sphEx] ⟨0, 0, 0⟩ 0).x 1 * 255⌋,
       ⌊min (trace sqEx ⟨⟨0, 0, 0⟩, Vec3.normalize sqEx
          ⟨(2 * (((0 : Nat) : ℚ) + 1 / 2) / ((800 : Nat) : ℚ) - 1) *
              (((800 : Nat) : ℚ) / ((600 : Nat) : ℚ)),
            1 - 2 * (((0 : Nat) : ℚ) + 1 / 2) / ((600 : Nat) : ℚ), -1⟩⟩
          [sphEx] ⟨0, 0, 0⟩ 0).y 1 * 255⌋,
       ⌊min (trace sqEx ⟨⟨0, 0, 0⟩, Vec3.normalize sqEx
          ⟨(2 * (((0 : Nat) : ℚ) + 1 / 2) / ((800 : Nat) : ℚ) - 1) *
              (((800 : Nat) : ℚ) / ((600 : Nat) : ℚ)),
            1 - 2 * (((0 : Nat) : ℚ) + 1 / 2) / ((600 : Nat) : ℚ), -1⟩⟩
          [sphEx] ⟨0, 0, 0⟩ 0).z 1 * 255⌋) :=
  C7_pixel_pipeline sqEx [sphEx] ⟨0, 0, 0⟩ 800 600 0 0 _ _ _ rfl rfl rfl

/-- Characterization of `Sphere::intersect`: the code's conditional root
selection equals the min/max formulation. -/
lemma intersect_eq (sq : ℚ → ℚ) (s : Sphere) (r : Ray) (t0 t1 : ℚ)
    (ht0 : t0 = (-s.coefB r - sq (s.disc r)) / (2 * s.coefA r))
    (ht1 : t1 = (-s.coefB r + sq (s.disc r)) / (2 * s.coefA r)) :
    Sphere.intersect sq s r =
      if s.disc r < 0 then none
      else if 0 ≤ (if min t0 t1 < 0 then max t0 t1 else min t0 t1)
        then some (if min t0 t1 < 0 then max t0 t1 else min t0 t1) else none := by
  subst ht0
  subst ht1
  simp only [Sphere.intersect]
  by_cases hneg : s.disc r < 0
  · rw [if_pos hneg, if_pos hneg]
  · rw [if_neg hneg, if_neg hneg]
    have hmin : (if (-s.coefB r - sq (s.disc r)) / (2 * s.coefA r) <
        (-s.coefB r + sq (s.disc r)) / (2 * s.coefA r)
        then (-s.coefB r - sq (s.disc r)) / (2 * s.coefA r)
        else (-s.coefB r + sq (s.disc r)) / (2 * s.coefA r)) =
        min ((-s.coefB r - sq (s.disc r)) / (2 * s.coefA r))
          ((-s.coefB r + sq (s.disc r)) / (2 * s.coefA r)) := by
      rcases lt_trichotomy ((-s.coefB r - sq (s.disc r)) / (2 * s.coefA r))
          ((-s.coefB r + sq (s.disc r)) / (2 * s.coefA r)) with h | h | h
      · rw [if_pos h, min_eq_left h.le]
      · rw [h, if_neg (lt_irrefl _), min_self]
      · rw [if_neg (not_lt.2 h.le), min_eq_right h.le]
    have hmax : (if (-s.coefB r - sq (s.disc r)) / (2 * s.coefA r) >
        (-s.coefB r + sq (s.disc r)) / (2 * s.coefA r)
        then (-s.coefB r - sq (s.disc r)) / (2 * s.coefA r)
        else (-s.coefB r + sq (s.disc r)) / (2 * s.coefA r)) =
        max ((-s.coefB r - sq (s.disc r)) / (2 * s.coefA r))
          ((-s.coefB r + sq (s.disc r)) / (2 * s.coefA r)) := by
      rcases lt_trichotomy ((-s.coefB r - sq (s.disc r)) / (2 * s.coefA r))
          ((-s.coefB r + sq (s.disc r)) / (2 * s.coefA r)) with h | h | h
      · rw [if_neg (not_lt.2 h.le), max_eq_right h.le]
      · rw [h, if_neg (lt_irrefl _), max_self]
      · rw [if_pos h, max_eq_left h.le]
    rw [hmin, hmax]

/-- C3: `intersect` returns no intersection when the discriminant is
negative; otherwise it computes both roots `t0`, `t1`, selects the smaller
as candidate, falls back to the larger when the smaller is negative, and
reports a hit exactly when the finally selected parameter is nonnegative. -/
theorem C3_root_selection (sq : ℚ → ℚ) (s : Sphere) (r : Ray) (b discr t0 t1 : ℚ)
    (hb : b = s.coefB r) (hd : discr = s.disc r)
    (ht0 : t0 = (-b - sq discr) / (2 * s.coefA r))
    (ht1 : t1 = (-b + sq discr) / (2 * s.coefA r)) :
    (discr < 0 → Sphere.intersect sq s r = none) ∧
    (0 ≤ discr → Sphere.intersect sq s r =
      if 0 ≤ (if min t0 t1 < 0 then max t0 t1 else min t0 t1)
      then some (if min t0 t1 < 0 then max t0 t1 else min t0 t1) else none) := by
  subst hb
  subst hd
  rw [intersect_eq sq s r t0 t1 ht0 ht1]
  constructor
  · intro h
    rw [if_pos h]
  · intro h
    rw [if_neg (not_lt.2 h)]

/-- Witness for C3 on the single-sphere scenario: the selected root is 4. -/
theorem C3_witness : Sphere.intersect sqEx sphEx rayEx = some 4 := by
  have h := (C3_root_selection sqEx sphEx rayEx _ _ _ _ rfl rfl rfl rfl).2
    (by norm_num [Sphere.disc, Sphere.coefA, Sphere.coefB, Sphere.coefC, sphEx, rayEx,
      Vec3.dot, Vec3.sub])
  rw [h]
  norm_num [Sphere.disc, Sphere.coefA, Sphere.coefB, Sphere.coefC, sphEx, rayEx,
    Vec3.dot, Vec3.sub, sqEx]

lemma Vec3.dot_self_nonneg (v : Vec3) : 0 ≤ v.dot v := by
  simp only [Vec3.dot]
  nlinarith [mul_self_nonneg v.x, mul_self_nonneg v.y, mul_self_nonneg v.z]

lemma Vec3.dot_self_eq_zero (v : Vec3) (h : v.dot v = 0) : v = ⟨0, 0, 0⟩ := by
  rcases v with ⟨x, y, z⟩
  simp only [Vec3.dot] at h
  have hx : x = 0 := by nlinarith [mul_self_nonneg x, mul_self_nonneg y, mul_self_nonneg z]
  have hy : y = 0 := by nlinarith [mul_self_nonneg x, mul_self_nonneg y, mul_self_nonneg z]
  have hz : z = 0 := by nlinarith [mul_self_nonneg x, mul_self_nonneg y, mul_self_nonneg z]
  simp [hx, hy, hz]

/-- Both candidate values computed by `Sphere::intersect` from an exact
square root of the discriminant are roots of the intersection quadratic. -/
lemma quadratic_root (a b c sd : ℚ) (ha : a ≠ 0) (h : sd * sd = b * b - 4 * a * c) (t : ℚ)
    (ht : t = (-b - sd) / (2 * a) ∨ t = (-b + sd) / (2 * a)) :
    a * t * t + b * t + c = 0 := by
  have h2a : (2 : ℚ) * a ≠ 0 := by
    intro hc
    exact ha (by linarith [hc])
  rcases ht with rfl | rfl
  · field_simp
    ring_nf
    linear_combination 2 * a ^ 2 * h
  · field_simp
    ring_nf
    linear_combination 2 * a ^ 2 * h

/-- The squared distance from the ray point at parameter `t` to the sphere
center, written through the quadratic coefficients of `Sphere::intersect`. -/
lemma sphere_eq_expand (s : Sphere) (r : Ray) (t : ℚ) :
    ((r.origin.add (r.direction.smul t)).sub s.center).dot
      ((r.origin.add (r.direction.smul t)).sub s.center) =
      s.coefA r * t * t + s.coefB r * t + (s.coefC r + s.radius * s.radius) := by
  rcases r with ⟨⟨ox, oy, oz⟩, ⟨dx, dy, dz⟩⟩
  rcases s with ⟨⟨cx, cy, cz⟩, rad, col⟩
  simp only [Sphere.coefA, Sphere.coefB, Sphere.coefC, Vec3.add, Vec3.sub, Vec3.smul, Vec3.dot]
  ring

/-- The sphere equation at parameter `t`: the squared distance from
`R.origin + t * R.direction` to the center equals the squared radius; for the
nonnegative radii of the data model this says the ray point lies at distance
`radius` from the center. -/
def onSphereAt (s : Sphere) (r : Ray) (t : ℚ) : Prop :=
  ((r.origin.add (r.direction.smul t)).sub s.center).dot
    ((r.origin.add (r.direction.smul t)).sub s.center) = s.radius * s.radius

/-- C1: for a sphere and a ray with nonzero direction, under exactness of
the square root at the discriminant, `intersect` reports a hit at `t` only
if `t` is nonnegative and the ray point at `t` satisfies the sphere
equation, and conversely whenever some nonnegative parameter satisfies the
sphere equation a hit is reported. -/
theorem C1_intersect_iff (sq : ℚ → ℚ) (S : Sphere) (R : Ray)
    (hdir : R.direction ≠ ⟨0, 0, 0⟩)
    (hsq : 0 ≤ S.disc R → 0 ≤ sq (S.disc R) ∧ sq (S.disc R) * sq (S.disc R) = S.disc R) :
    (∀ t, Sphere.intersect sq S R = some t → 0 ≤ t ∧ onSphereAt S R t) ∧
    ((∃ t, 0 ≤ t ∧ onSphereAt S R t) → (Sphere.intersect sq S R).isSome = true) := by
  have ha : 0 < S.coefA R := by
    rcases lt_or_eq_of_le (Vec3.dot_self_nonneg R.direction) with h | h
    · exact h
    · exact absurd (Vec3.dot_self_eq_zero R.direction h.symm) hdir
  have hddef : S.disc R = S.coefB R * S.coefB R - 4 * S.coefA R * S.coefC R := rfl
  rw [intersect_eq sq S R _ _ rfl rfl]
  constructor
  · -- soundness: a reported hit parameter is nonnegative and satisfies the sphere equation
    intro t ht
    by_cases hneg : S.disc R < 0
    · rw [if_pos hneg] at ht
      exact Option.noConfusion ht
    · rw [if_neg hneg] at ht
      obtain ⟨hsd1, hsd2⟩ := hsq (not_lt.1 hneg)
      have hsd2x : sq (S.disc R) * sq (S.disc R) =
          S.coefB R * S.coefB R - 4 * S.coefA R * S.coefC R := by rw [hsd2, hddef]
      split_ifs at ht with hm hg hg
      all_goals (
        obtain heq := Option.some.inj ht
        have hmem : t = (-S.coefB R - sq (S.disc R)) / (2 * S.coefA R) ∨
            t = (-S.coefB R + sq (S.disc R)) / (2 * S.coefA R) := by
          rw [← heq]
          first
            | exact max_choice _ _
            | exact min_choice _ _
        refine ⟨heq ▸ hg, ?_⟩
        have hq := quadratic_root _ _ _ _ (ne_of_gt ha) hsd2x t hmem
        rw [onSphereAt, sphere_eq_expand]
        linear_combination hq)
  · -- completeness: a nonnegative parameter on the sphere forces a reported hit
    rintro ⟨t, htnn, hon⟩
    rw [onSphereAt, sphere_eq_expand] at hon
    have aq : S.coefA R * t * t + S.coefB R * t + S.coefC R = 0 := by linarith
    have hdsq : S.disc R =
        (2 * S.coefA R * t + S.coefB R) * (2 * S.coefA R * t + S.coefB R) := by
      rw [hddef]
      linear_combination (-4 * S.coefA R) * aq
    have hd0 : 0 ≤ S.disc R := hdsq ▸ mul_self_nonneg _
    obtain ⟨hsd1, hsd2⟩ := hsq hd0
    have hcases : sq (S.disc R) = 2 * S.coefA R * t + S.coefB R ∨
        sq (S.disc R) = -(2 * S.coefA R * t + S.coefB R) :=
      mul_self_eq_mul_self_iff.mp (hsd2.trans hdsq)
    have h2a : (0 : ℚ) < 2 * S.coefA R := by linarith
    have htmem : t = (-S.coefB R - sq (S.disc R)) / (2 * S.coefA R) ∨
        t = (-S.coefB R + sq (S.disc R)) / (2 * S.coefA R) := by
      rcases hcases with h | h
      · right
        rw [h]
        field_simp
      · left
        rw [h]
        field_simp
    have h01 : (-S.coefB R - sq (S.disc R)) / (2 * S.coefA R) ≤
        (-S.coefB R + sq (S.disc R)) / (2 * S.coefA R) := by
      rw [div_le_div_iff₀ h2a h2a]
      nlinarith
    have ht1nn : 0 ≤ (-S.coefB R + sq (S.disc R)) / (2 * S.coefA R) := by
      rcases htmem with h | h <;> linarith
    rw [if_neg (not_lt.2 hd0)]
    by_cases hm : min ((-S.coefB R - sq (S.disc R)) / (2 * S.coefA R))
        ((-S.coefB R + sq (S.disc R)) / (2 * S.coefA R)) < 0
    · rw [if_pos hm, max_eq_right h01, if_pos ht1nn]
      rfl
    · rw [if_neg hm, if_pos (not_lt.1 hm)]
      rfl

/-- Witness for C1 on the single-sphere scenario: the reported parameter 4
is nonnegative and satisfies the sphere equation, and a hit is reported. -/
theorem C1_intersect_iff_witness :
    Sphere.intersect sqEx sphEx rayEx = some 4 ∧ (0 ≤ (4 : ℚ) ∧ onSphereAt sphEx rayEx 4) ∧
      (Sphere.intersect sqEx sphEx rayEx).isSome = true := by
  have hdir : rayEx.direction ≠ (⟨0, 0, 0⟩ : Vec3) := by
    norm_num [rayEx, Vec3.mk.injEq]
  have hd : sphEx.disc rayEx = 4 := by
    norm_num [Sphere.disc, Sphere.coefA, Sphere.coefB, Sphere.coefC, sphEx, rayEx,
      Vec3.dot, Vec3.sub]
  have hsq : 0 ≤ sphEx.disc rayEx →
      0 ≤ sqEx (sphEx.disc rayEx) ∧
        sqEx (sphEx.disc rayEx) * sqEx (sphEx.disc rayEx) = sphEx.disc rayEx := by
    intro h
    rw [hd]
    norm_num [sqEx]
  have h := C1_intersect_iff sqEx sphEx rayEx hdir hsq
  have hi : Sphere.intersect sqEx sphEx rayEx = some 4 := by
    norm_num [Sphere.intersect, Sphere.coefA, Sphere.coefB, Sphere.coefC, Sphere.disc,
      sqEx, sphEx, rayEx, Vec3.dot, Vec3.sub]
  have h4 := h.1 4 hi
  exact ⟨hi, h4, h.2 ⟨4, h4.1, h4.2⟩⟩

/-- The list of hit parameters reported by `intersect` over a scene, in scan
order. -/
def hitParams (sq : ℚ → ℚ) (spheres : List Sphere) (ray : Ray) : List ℚ :=
  spheres.filterMap fun s => Sphere.intersect sq s ray

/-- The scan of `nearestAux` either leaves the accumulator unchanged or
resolves an indexed sphere whose reported parameter strictly improves on the
accumulator bound. -/
lemma nearestAux_cases (sq : ℚ → ℚ) (ray : Ray) :
    ∀ (l : List Sphere) (i0 : Nat) (acc : ℚ × Option Nat),
      nearestAux sq ray l i0 acc = acc ∨
      ∃ k s, l[k]? = some s ∧
        (nearestAux sq ray l i0 acc).2 = some (i0 + k) ∧
        Sphere.intersect sq s ray = some (nearestAux sq ray l i0 acc).1 ∧
        (nearestAux sq ray l i0 acc).1 < acc.1 := by
  intro l
  induction l with
  | nil => intro i0 acc; exact Or.inl rfl
  | cons s rest ih =>
    intro i0 acc
    cases hint : Sphere.intersect sq s ray with
    | none =>
      simp only [nearestAux, hint]
      rcases ih (i0 + 1) acc with h | ⟨k, s', h1, h2, h3, h4⟩
      · exact Or.inl h
      · refine Or.inr ⟨k + 1, s', by simpa using h1, ?_, h3, h4⟩
        rw [h2]
        congr 1
        omega
    | some t =>
      simp only [nearestAux, hint]
      by_cases hlt : t < acc.1
      · rw [if_pos hlt]
        rcases ih (i0 + 1) (t, some i0) with h | ⟨k, s', h1, h2, h3, h4⟩
        · refine Or.inr ⟨0, s, by simp, ?_, ?_, ?_⟩
          · rw [h]; simp
          · rw [h]; exact hint
          · rw [h]; exact hlt
        · refine Or.inr ⟨k + 1, s', by simpa using h1, ?_, h3, ?_⟩
          · rw [h2]; congr 1; omega
          · exact lt_trans (lt_of_lt_of_le h4 (le_refl t)) hlt
      · rw [if_neg hlt]
        rcases ih (i0 + 1) acc with h | ⟨k, s', h1, h2, h3, h4⟩
        · exact Or.inl h
        · refine Or.inr ⟨k + 1, s', by simpa using h1, ?_, h3, h4⟩
          rw [h2]
          congr 1
          omega

/-- The running nearest value of the scan never increases. -/
lemma nearestAux_le_acc (sq : ℚ → ℚ) (ray : Ray) :
    ∀ (l : List Sphere) (i0 : Nat) (acc : ℚ × Option Nat),
      (nearestAux sq ray l i0 acc).1 ≤ acc.1 := by
  intro l
  induction l with
  | nil => intro i0 acc; exact le_refl _
  | cons s rest ih =>
    intro i0 acc
    cases hint : Sphere.intersect sq s ray with
    | none => simpa only [nearestAux, hint] using ih (i0 + 1) acc
    | some t =>
      simp only [nearestAux, hint]
      by_cases hlt : t < acc.1
      · rw [if_pos hlt]
        exact le_trans (ih (i0 + 1) (t, some i0)) hlt.le
      · rw [if_neg hlt]
        exact ih (i0 + 1) acc

/-- The final nearest value of the scan is a lower bound on every reported
hit parameter of the scanned list. -/
lemma nearestAux_le_hit (sq : ℚ → ℚ) (ray : Ray) :
    ∀ (l : List Sphere) (i0 : Nat) (acc : ℚ × Option Nat) (s : Sphere) (t : ℚ),
      s ∈ l → Sphere.intersect sq s ray = some t →
      (nearestAux sq ray l i0 acc).1 ≤ t := by
  intro l
  induction l with
  | nil => intro i0 acc s t hmem; exact absurd hmem (List.not_mem_nil s)
  | cons s0 rest ih =>
    intro i0 acc s t hmem hint
    rcases List.mem_cons.1 hmem with rfl | hmem'
    · simp only [nearestAux, hint]
      by_cases hlt : t < acc.1
      · rw [if_pos hlt]
        exact le_trans (nearestAux_le_acc sq ray rest (i0 + 1) (t, some i0)) (le_refl t)
      · rw [if_neg hlt]
        exact le_trans (nearestAux_le_acc sq ray rest (i0 + 1) acc) (not_lt.1 hlt)
    · cases hint0 : Sphere.intersect sq s0 ray with
      | none => simpa only [nearestAux, hint0] using ih (i0 + 1) acc s t hmem' hint
      | some t0 =>
        simp only [nearestAux, hint0]
        by_cases hlt : t0 < acc.1
        · rw [if_pos hlt]
          exact ih (i0 + 1) (t0, some i0) s t hmem' hint
        · rw [if_neg hlt]
          exact ih (i0 + 1) acc s t hmem' hint

/-- C2 (amended): the nearest-hit search scans every primitive and, when it
resolves one, that primitive's reported parameter is a minimum of all hits
and lies below the `1e9` sentinel; any reported hit below the sentinel
forces a resolution; and when nothing is resolved, `trace` returns exactly
the background color (0.1, 0.1, 0.1). -/
theorem C2_nearest_hit (sq : ℚ → ℚ) (spheres : List Sphere) (ray : Ray) :
    (∀ t i, nearestHit sq spheres ray = (t, some i) →
      ∃ s, spheres[i]? = some s ∧ Sphere.intersect sq s ray = some t ∧
        t < 1000000000 ∧ ∀ u ∈ hitParams sq spheres ray, t ≤ u) ∧
    ((∃ u ∈ hitParams sq spheres ray, u < 1000000000) →
      ((nearestHit sq spheres ray).2).isSome = true) ∧
    ((nearestHit sq spheres ray).2 = none →
      ∀ lightPos depth, trace sq ray spheres lightPos depth = ⟨1 / 10, 1 / 10, 1 / 10⟩) := by
  refine ⟨?_, ?_, ?_⟩
  · intro t i hres
    rcases nearestAux_cases sq ray spheres 0 (1000000000, none) with h | ⟨k, s, h1, h2, h3, h4⟩
    · rw [nearestHit] at hres
      rw [h] at hres
      exact absurd (congrArg Prod.snd hres) (by simp)
    · rw [nearestHit] at hres
      rw [hres] at h2 h3 h4
      simp only at h2 h3 h4
      obtain rfl : i = k := by
        injection h2 with h2x
        omega
      refine ⟨s, h1, h3, h4, ?_⟩
      intro u hu
      rw [hitParams, List.mem_filterMap] at hu
      obtain ⟨s', hs'mem, hint⟩ := hu
      have hle := nearestAux_le_hit sq ray spheres 0 (1000000000, none) s' u hs'mem hint
      rw [hres] at hle
      exact hle
  · rintro ⟨u, hu, hult⟩
    rw [hitParams, List.mem_filterMap] at hu
    obtain ⟨s', hs'mem, hint⟩ := hu
    have hle := nearestAux_le_hit sq ray spheres 0 (1000000000, none) s' u hs'mem hint
    rcases nearestAux_cases sq ray spheres 0 (1000000000, none) with h | ⟨k, s, h1, h2, h3, h4⟩
    · rw [h] at hle
      simp only at hle
      linarith
    · rw [nearestHit, h2]
      rfl
  · intro hnone lightPos depth
    by_cases hd : 2 < depth
    · unfold trace
      rw [dif_pos hd]
    · unfold trace
      rw [dif_neg hd, hnone]

/-- The shadow scan reports a hit exactly when some sphere at an index other
than the hit index intersects the ray, indices taken from `i0`. -/
lemma shadowAnyAux_iff (sq : ℚ → ℚ) (ray : Ray) :
    ∀ (l : List Sphere) (i0 hitIdx : Nat),
      shadowAnyAux sq ray l i0 hitIdx = true ↔
        ∃ k s, l[k]? = some s ∧ i0 + k ≠ hitIdx ∧
          (Sphere.intersect sq s ray).isSome = true := by
  intro l
  induction l with
  | nil =>
    intro i0 hitIdx
    simp [shadowAnyAux]
  | cons s0 rest ih =>
    intro i0 hitIdx
    rw [shadowAnyAux]
    by_cases hc : i0 ≠ hitIdx ∧ (Sphere.intersect sq s0 ray).isSome = true
    · rw [if_pos hc]
      simp only [true_iff]
      exact ⟨0, s0, by simp, by simpa using hc.1, hc.2⟩
    · rw [if_neg hc]
      rw [ih (i0 + 1) hitIdx]
      constructor
      · rintro ⟨k, s, h1, h2, h3⟩
        refine ⟨k + 1, s, by simpa using h1, by omega, h3⟩
      · rintro ⟨k, s, h1, h2, h3⟩
        cases k with
        | zero =>
          simp only [List.getElem?_cons_zero, Option.some.injEq] at h1
          subst h1
          exact absurd ⟨by omega, h3⟩ hc
        | succ k =>
          refine ⟨k, s, by simpa using h1, by omega, h3⟩

/-- One-step unfolding of `trace` on a resolved hit. -/
lemma trace_hit (sq : ℚ → ℚ) (ray : Ray) (spheres : List Sphere) (lightPos : Vec3)
    (depth : Nat) (t : ℚ) (i : Nat) (hd : depth ≤ 2)
    (hn : nearestHit sq spheres ray = (t, some i)) :
    trace sq ray spheres lightPos depth =
      (((shadeBase sq ray spheres lightPos i t).1).smul (1 - 1 / 2)).add
        ((trace sq (shadeBase sq ray spheres lightPos i t).2 spheres lightPos
          (depth + 1)).smul (1 / 2)) := by
  have h1 : (nearestHit sq spheres ray).2 = some i := by rw [hn]
  have h2 : (nearestHit sq spheres ray).1 = t := by rw [hn]
  conv_lhs => rw [trace]
  rw [dif_neg (by omega)]
  simp only [h1, h2]

/-- A sphere whose nearest hit parameter is exactly `1e9`. -/
def sphFar : Sphere := ⟨⟨0, 0, -1000000001⟩, 1, ⟨1, 0, 0⟩⟩

/-- Square-root table for the far-sphere scenario. -/
def sqFar : ℚ → ℚ := fun d => if d = 4 then 2 else 0

/-- C2 counterexample: the far sphere is hit by `intersect` at the
nonnegative parameter `1e9`, yet the nearest-hit search resolves nothing
(the `nearest` sentinel starts at `1e9` and only strict improvements are
kept), and `trace` returns the background color although a primitive is
hit. This refutes the claim that the search resolves the primitive with
the smallest nonnegative parameter among all reported hits. -/
theorem C2_counterexample :
    Sphere.intersect sqFar sphFar rayEx = some 1000000000 ∧
    (nearestHit sqFar [sphFar] rayEx).2 = none ∧
    trace sqFar rayEx [sphFar] ⟨0, 0, 0⟩ 0 = ⟨1 / 10, 1 / 10, 1 / 10⟩ := by
  have hi : Sphere.intersect sqFar sphFar rayEx = some 1000000000 := by
    norm_num [Sphere.intersect, Sphere.coefA, Sphere.coefB, Sphere.coefC, Sphere.disc,
      sqFar, sphFar, rayEx, Vec3.dot, Vec3.sub]
  have hn : (nearestHit sqFar [sphFar] rayEx).2 = none := by
    simp only [nearestHit, nearestAux, hi]
    norm_num
  refine ⟨hi, hn, ?_⟩
  unfold trace
  rw [dif_neg (by norm_num), hn]

/-- Witness for C2 (amended): the miss branch applied at the far-sphere
scene at depth 1. -/
theorem C2_nearest_hit_witness :
    trace sqFar rayEx [sphFar] ⟨0, 0, 0⟩ 1 = ⟨1 / 10, 1 / 10, 1 / 10⟩ := by
  have hi : Sphere.intersect sqFar sphFar rayEx = some 1000000000 := by
    norm_num [Sphere.intersect, Sphere.coefA, Sphere.coefB, Sphere.coefC, Sphere.disc,
      sqFar, sphFar, rayEx, Vec3.dot, Vec3.sub]
  have hn : (nearestHit sqFar [sphFar] rayEx).2 = none := by
    simp only [nearestHit, nearestAux, hi]
    norm_num
  exact (C2_nearest_hit sqFar [sphFar] rayEx).2.2 hn ⟨0, 0, 0⟩ 1

/-- C4: for a hit resolved by `trace`, the base color is the primitive color
scaled by the clamped Lambertian factor `max(dot(normal, lightDir), 0)`,
dimmed by `0.2` exactly when the shadow ray from `hitPoint + normal*0.001`
toward the light is intersected by some primitive other than the one just
hit; and the traced color composites this base color with weight `1 - 0.5`
against a reflected contribution with weight `0.5`. -/
theorem C4_base_color (sq : ℚ → ℚ) (ray : Ray) (spheres : List Sphere) (lightPos : Vec3)
    (depth : Nat) (t : ℚ) (i : Nat) (s : Sphere)
    (hitPoint normal lightDir : Vec3) (diff : ℚ) (shadowRay : Ray)
    (hd : depth ≤ 2)
    (hn : nearestHit sq spheres ray = (t, some i))
    (hs : spheres[i]? = some s)
    (hhp : hitPoint = ray.origin.add (ray.direction.smul t))
    (hno : normal = Vec3.normalize sq (hitPoint.sub s.center))
    (hld : lightDir = Vec3.normalize sq (lightPos.sub hitPoint))
    (hdi : diff = max (normal.dot lightDir) 0)
    (hsr : shadowRay = ⟨hitPoint.add (normal.smul (1 / 1000)), lightDir⟩) :
    ((shadeBase sq ray spheres lightPos i t).1 =
      if inShadow sq spheres i shadowRay then (s.color.smul diff).smul (1 / 5)
      else s.color.smul diff) ∧
    (inShadow sq spheres i shadowRay = true ↔
      ∃ j s2, spheres[j]? = some s2 ∧ j ≠ i ∧
        (Sphere.intersect sq s2 shadowRay).isSome = true) ∧
    (∃ reflected : Vec3, trace sq ray spheres lightPos depth =
      (((shadeBase sq ray spheres lightPos i t).1).smul (1 - 1 / 2)).add
        (reflected.smul (1 / 2))) := by
  have hsg : spheres.getD i ⟨⟨0, 0, 0⟩, 0, ⟨0, 0, 0⟩⟩ = s := by
    rw [List.getD_eq_getElem?_getD, hs]
    rfl
  refine ⟨?_, ?_, ?_⟩
  · subst hhp hno hld hdi hsr
    simp only [shadeBase, hsg]
  · rw [inShadow, shadowAnyAux_iff]
    constructor
    · rintro ⟨k, s2, h1, h2, h3⟩
      exact ⟨k, s2, h1, by omega, h3⟩
    · rintro ⟨j, s2, h1, h2, h3⟩
      exact ⟨j, s2, h1, by omega, h3⟩
  · exact ⟨trace sq (shadeBase sq ray spheres lightPos i t).2 spheres lightPos (depth + 1),
      trace_hit sq ray spheres lightPos depth t i hd hn⟩

/-- C5: for a hit resolved by `trace` at depth `d`, the returned color is
`baseColor*(1 - 0.5) + reflectedColor*0.5` where the reflected color is the
recursive trace, at depth `d + 1`, of the ray cast from
`hitPoint + normal*0.001` in the normalized direction
`direction - normal*2*dot(direction, normal)`. -/
theorem C5_reflection (sq : ℚ → ℚ) (ray : Ray) (spheres : List Sphere) (lightPos : Vec3)
    (depth : Nat) (t : ℚ) (i : Nat) (s : Sphere)
    (hitPoint normal reflectDir : Vec3) (reflectRay : Ray)
    (hd : depth ≤ 2)
    (hn : nearestHit sq spheres ray = (t, some i))
    (hs : spheres[i]? = some s)
    (hhp : hitPoint = ray.origin.add (ray.direction.smul t))
    (hno : normal = Vec3.normalize sq (hitPoint.sub s.center))
    (hrd : reflectDir = Vec3.normalize sq
      (ray.direction.sub (normal.smul (2 * ray.direction.dot normal))))
    (hrr : reflectRay = ⟨hitPoint.add (normal.smul (1 / 1000)), reflectDir⟩) :
    trace sq ray spheres lightPos depth =
      (((shadeBase sq ray spheres lightPos i t).1).smul (1 - 1 / 2)).add
        ((trace sq reflectRay spheres lightPos (depth + 1)).smul (1 / 2)) := by
  have hsg : spheres.getD i ⟨⟨0, 0, 0⟩, 0, ⟨0, 0, 0⟩⟩ = s := by
    rw [List.getD_eq_getElem?_getD, hs]
    rfl
  have hsb2 : (shadeBase sq ray spheres lightPos i t).2 = reflectRay := by
    subst hhp hno hrd hrr
    simp only [shadeBase, hsg]
  rw [trace_hit sq ray spheres lightPos depth t i hd hn, hsb2]

/-- The scenario light position. -/
def light0 : Vec3 := ⟨0, 0, 0⟩

/-- Scenario hit point at parameter 4 along `rayEx`. -/
def hp0 : Vec3 := rayEx.origin.add (rayEx.direction.smul 4)

/-- Scenario surface normal. -/
def n0 : Vec3 := Vec3.normalize sqEx (hp0.sub sphEx.center)

/-- Scenario light direction. -/
def ld0 : Vec3 := Vec3.normalize sqEx (light0.sub hp0)

/-- Scenario diffuse factor. -/
def diff0 : ℚ := max (n0.dot ld0) 0

/-- Scenario shadow ray. -/
def shadowRay0 : Ray := ⟨hp0.add (n0.smul (1 / 1000)), ld0⟩

/-- Scenario reflected direction. -/
def rd0 : Vec3 := Vec3.normalize sqEx (rayEx.direction.sub (n0.smul (2 * rayEx.direction.dot n0)))

/-- Scenario reflection ray. -/
def rr0 : Ray := ⟨hp0.add (n0.smul (1 / 1000)), rd0⟩

/-- Witness for C4 on the single-sphere scenario at depth 0. -/
theorem C4_base_color_witness :
    (shadeBase sqEx rayEx [sphEx] light0 0 4).1 =
      if inShadow sqEx [sphEx] 0 shadowRay0 then (sphEx.color.smul diff0).smul (1 / 5)
      else sphEx.color.smul diff0 := by
  have hi : Sphere.intersect sqEx sphEx rayEx = some 4 := by
    norm_num [Sphere.intersect, Sphere.coefA, Sphere.coefB, Sphere.coefC, Sphere.disc,
      sqEx, sphEx, rayEx, Vec3.dot, Vec3.sub]
  have hnear : nearestHit sqEx [sphEx] rayEx = (4, some 0) := by
    simp only [nearestHit, nearestAux, hi]
    norm_num
  exact (C4_base_color sqEx rayEx [sphEx] light0 0 4 0 sphEx hp0 n0 ld0 diff0 shadowRay0
    (by norm_num) hnear rfl rfl rfl rfl rfl rfl).1

/-- Witness for C5 on the single-sphere scenario at depth 0. -/
theorem C5_reflection_witness :
    trace sqEx rayEx [sphEx] light0 0 =
      (((shadeBase sqEx rayEx [sphEx] light0 0 4).1).smul (1 - 1 / 2)).add
        ((trace sqEx rr0 [sphEx] light0 (0 + 1)).smul (1 / 2)) := by
  have hi : Sphere.intersect sqEx sphEx rayEx = some 4 := by
    norm_num [Sphere.intersect, Sphere.coefA, Sphere.coefB, Sphere.coefC, Sphere.disc,
      sqEx, sphEx, rayEx, Vec3.dot, Vec3.sub]
  have hnear : nearestHit sqEx [sphEx] rayEx = (4, some 0) := by
    simp only [nearestHit, nearestAux, hi]
    norm_num
  exact C5_reflection sqEx rayEx [sphEx] light0 0 4 0 sphEx hp0 n0 rd0 rr0
    (by norm_num) hnear rfl rfl rfl rfl rfl

/-- A color (or vector) has all components in the unit interval. -/
def inRange01 (c : Vec3) : Prop :=
  0 ≤ c.x ∧ c.x ≤ 1 ∧ 0 ≤ c.y ∧ c.y ≤ 1 ∧ 0 ≤ c.z ∧ c.z ≤ 1

/-- An abstract square root behaves admissibly for the range analysis: on
positive inputs it is positive and its square dominates the input (true of
the exact square root, and of any upward-rounded one). -/
def SqrtAdmissible (sq : ℚ → ℚ) : Prop :=
  ∀ q : ℚ, 0 < q → 0 < sq q ∧ q ≤ sq q * sq q

/-- Cauchy-Schwarz for the embedded 3-vectors, via the Lagrange identity. -/
lemma vec3_cauchy_schwarz (u v : Vec3) :
    (u.dot v) * (u.dot v) ≤ (u.dot u) * (v.dot v) := by
  rcases u with ⟨ux, uy, uz⟩
  rcases v with ⟨vx, vy, vz⟩
  simp only [Vec3.dot]
  nlinarith [sq_nonneg (ux * vy - uy * vx), sq_nonneg (ux * vz - uz * vx),
    sq_nonneg (uy * vz - uz * vy)]

/-- The dot product of two vectors normalized by an admissible square root
is at most 1 (if either vector is zero its normalization is the zero vector
in the rational model, and the dot product vanishes). -/
lemma dot_normalize_le_one (sq : ℚ → ℚ) (hsq : SqrtAdmissible sq) (u v : Vec3) :
    (Vec3.normalize sq u).dot (Vec3.normalize sq v) ≤ 1 := by
  have hdot : (Vec3.normalize sq u).dot (Vec3.normalize sq v) =
      (u.dot v) / (sq (u.dot u) * sq (v.dot v)) := by
    simp only [Vec3.normalize, Vec3.dot, div_mul_div_comm, div_add_div_same]
  rw [hdot]
  rcases lt_or_eq_of_le (Vec3.dot_self_nonneg u) with hu | hu
  · rcases lt_or_eq_of_le (Vec3.dot_self_nonneg v) with hv | hv
    · obtain ⟨hm1, hp1⟩ := hsq (u.dot u) hu
      obtain ⟨hm2, hp2⟩ := hsq (v.dot v) hv
      rw [div_le_one (by positivity)]
      nlinarith [vec3_cauchy_schwarz u v, mul_pos hm1 hm2]
    · have hv0 : v = ⟨0, 0, 0⟩ := Vec3.dot_self_eq_zero v hv.symm
      subst hv0
      rcases u with ⟨ux, uy, uz⟩
      simp [Vec3.dot]
  · have hu0 : u = ⟨0, 0, 0⟩ := Vec3.dot_self_eq_zero u hu.symm
    subst hu0
    rcases v with ⟨vx, vy, vz⟩
    simp [Vec3.dot]

/-- Scaling a unit-interval color by a unit-interval factor stays in the
unit interval. -/
lemma inRange01_smul (c : Vec3) (q : ℚ) (hc : inRange01 c) (h0 : 0 ≤ q) (h1 : q ≤ 1) :
    inRange01 (c.smul q) := by
  obtain ⟨h1x, h2x, h1y, h2y, h1z, h2z⟩ := hc
  refine ⟨?_, ?_, ?_, ?_, ?_, ?_⟩ <;> simp only [Vec3.smul] <;> nlinarith

/-- The half-half composite of two unit-interval colors is in the unit
interval. -/
lemma inRange01_mix (a b : Vec3) (ha : inRange01 a) (hb : inRange01 b) :
    inRange01 ((a.smul (1 - 1 / 2)).add (b.smul (1 / 2))) := by
  obtain ⟨h1x, h2x, h1y, h2y, h1z, h2z⟩ := ha
  obtain ⟨g1x, g2x, g1y, g2y, g1z, g2z⟩ := hb
  refine ⟨?_, ?_, ?_, ?_, ?_, ?_⟩ <;> simp only [Vec3.smul, Vec3.add] <;> nlinarith

/-- A `getD` lookup is a member of the list or the default. -/
lemma getD_mem_or_default {α : Type} : ∀ (l : List α) (i : Nat) (d : α),
    l.getD i d ∈ l ∨ l.getD i d = d := by
  intro l
  induction l with
  | nil => intro i d; exact Or.inr rfl
  | cons a rest ih =>
    intro i d
    cases i with
    | zero => exact Or.inl (by simp [List.getD])
    | succ i =>
      rcases ih i d with h | h
      · exact Or.inl (by simp [List.getD] at h ⊢; exact Or.inr h)
      · exact Or.inr (by simpa [List.getD] using h)

/-- The base color computed by the hit-resolution block stays in the unit
interval when every scene color does and the square root is admissible. -/
lemma shadeBase_fst_inRange (sq : ℚ → ℚ) (hsq : SqrtAdmissible sq) (ray : Ray)
    (spheres : List Sphere) (lightPos : Vec3) (i : Nat) (nearest : ℚ)
    (hc : ∀ s ∈ spheres, inRange01 s.color) :
    inRange01 (shadeBase sq ray spheres lightPos i nearest).1 := by
  have hcol : inRange01 (spheres.getD i ⟨⟨0, 0, 0⟩, 0, ⟨0, 0, 0⟩⟩).color := by
    rcases getD_mem_or_default spheres i ⟨⟨0, 0, 0⟩, 0, ⟨0, 0, 0⟩⟩ with h | h
    · exact hc _ h
    · rw [h]
      exact ⟨le_refl 0, by norm_num, le_refl 0, by norm_num, le_refl 0, by norm_num⟩
  have hdiffLe : ∀ a b : Vec3,
      max ((Vec3.normalize sq a).dot (Vec3.normalize sq b)) 0 ≤ 1 :=
    fun a b => max_le (dot_normalize_le_one sq hsq a b) (by norm_num)
  simp only [shadeBase]
  set s := spheres.getD i ⟨⟨0, 0, 0⟩, 0, ⟨0, 0, 0⟩⟩
  have hbase : inRange01 (s.color.smul (max ((Vec3.normalize sq
      ((ray.origin.add (ray.direction.smul nearest)).sub s.center)).dot
      (Vec3.normalize sq (lightPos.sub (ray.origin.add (ray.direction.smul nearest))))) 0)) :=
    inRange01_smul _ _ hcol (le_max_right _ _) (hdiffLe _ _)
  split_ifs
  · exact inRange01_smul _ _ hbase (by norm_num) (by norm_num)
  · exact hbase

/-- Range invariant for `trace`, by induction on the remaining depth
budget. -/
lemma trace_inRange_aux (sq : ℚ → ℚ) (hsq : SqrtAdmissible sq) (spheres : List Sphere)
    (hc : ∀ s ∈ spheres, inRange01 s.color) (lightPos : Vec3) :
    ∀ (n depth : Nat), 3 - depth ≤ n → ∀ ray, inRange01 (trace sq ray spheres lightPos depth) := by
  intro n
  induction n with
  | zero =>
    intro depth hdn ray
    unfold trace
    rw [dif_pos (by omega)]
    exact ⟨by norm_num, by norm_num, by norm_num, by norm_num, by norm_num, by norm_num⟩
  | succ n ih =>
    intro depth hdn ray
    unfold trace
    by_cases hd : 2 < depth
    · rw [dif_pos hd]
      exact ⟨by norm_num, by norm_num, by norm_num, by norm_num, by norm_num, by norm_num⟩
    · rw [dif_neg hd]
      cases hnh : (nearestHit sq spheres ray).2 with
      | none =>
        exact ⟨by norm_num, by norm_num, by norm_num, by norm_num, by norm_num, by norm_num⟩
      | some i =>
        simp only
        exact inRange01_mix _ _
          (shadeBase_fst_inRange sq hsq ray spheres lightPos i _ hc)
          (ih (depth + 1) (by omega) _)

/-- C10: when every scene color has components in the unit interval and the
abstract square root is admissible (positive with dominating square on
positive inputs, so normalized vectors have dot products at most 1 and the
diffuse factor is at most 1), every component of the color returned by
`trace` lies in the unit interval; consequently the frame renderer's upper
clamp `min(component, 1)` never changes a value. -/
theorem C10_trace_in_range (sq : ℚ → ℚ) (spheres : List Sphere) (ray : Ray)
    (lightPos : Vec3) (depth : Nat) (hsq : SqrtAdmissible sq)
    (hc : ∀ s ∈ spheres, inRange01 s.color) :
    inRange01 (trace sq ray spheres lightPos depth) ∧
    min (trace sq ray spheres lightPos depth).x 1 = (trace sq ray spheres lightPos depth).x ∧
    min (trace sq ray spheres lightPos depth).y 1 = (trace sq ray spheres lightPos depth).y ∧
    min (trace sq ray spheres lightPos depth).z 1 = (trace sq ray spheres lightPos depth).z := by
  have h := trace_inRange_aux sq hsq spheres hc lightPos 3 depth (by omega) ray
  exact ⟨h, min_eq_left h.2.1, min_eq_left h.2.2.2.1, min_eq_left h.2.2.2.2.2⟩

/-- An admissible square root used for the C10 witness. -/
def sqW : ℚ → ℚ := fun q => max q 1

/-- Witness for C10 on the single-sphere scenario. -/
theorem C10_trace_in_range_witness :
    inRange01 (trace sqW rayEx [sphEx] light0 0) ∧
    min (trace sqW rayEx [sphEx] light0 0).x 1 = (trace sqW rayEx [sphEx] light0 0).x ∧
    min (trace sqW rayEx [sphEx] light0 0).y 1 = (trace sqW rayEx [sphEx] light0 0).y ∧
    min (trace sqW rayEx [sphEx] light0 0).z 1 = (trace sqW rayEx [sphEx] light0 0).z := by
  apply C10_trace_in_range
  · intro q hq
    simp only [sqW]
    constructor
    · exact lt_of_lt_of_le one_pos (le_max_right q 1)
    · rcases le_total q 1 with h | h
      · rw [max_eq_right h]
        nlinarith
      · rw [max_eq_left h]
        nlinarith
  · intro s hs
    rcases List.mem_singleton.1 hs with rfl
    exact ⟨by norm_num [sphEx], by norm_num [sphEx], by norm_num [sphEx],
      by norm_num [sphEx], by norm_num [sphEx], by norm_num [sphEx]⟩
